import Mathlib

/-!
Verification of `npd` (Now Playing Daemon), a shallow embedding of the
change-detection core found in `src/mpd.rs` and `src/lib.rs`.

Text is modelled as `List Char`.  A buffered line reader is modelled as a
`List (Except Unit (List Char))`: each element is the outcome of one
`read_line` call (`Except.ok line` for a successful read, `Except.error ()`
for an I/O failure); an exhausted list corresponds to `read_line`
returning length `0` (end of input).  Lines carry their trailing newline
when the original stream had one; nothing below depends on that.
-/

namespace Npd

/-- Characters with the Unicode `White_Space` property, the set removed by
Rust's `str::trim`. -/
def isRustWhitespace (c : Char) : Bool :=
  c = '\x09' || c = '\x0A' || c = '\x0B' || c = '\x0C' || c = '\x0D' || c = ' ' ||
  c = '\u0085' || c = '\u00A0' || c = '\u1680' ||
  ('\u2000' ≤ c && c ≤ '\u200A') ||
  c = '\u2028' || c = '\u2029' || c = '\u202F' || c = '\u205F' || c = '\u3000'

/-- Rust's `char::is_ascii_whitespace`: space, tab, newline, form feed,
carriage return.  This is the predicate `parse_config` splits on. -/
def isAsciiWhitespace (c : Char) : Bool :=
  c = ' ' || c = '\x09' || c = '\x0A' || c = '\x0C' || c = '\x0D'

/-- `str::trim_start`. -/
def trimStartList (s : List Char) : List Char :=
  s.dropWhile isRustWhitespace

/-- `str::trim_end`. -/
def trimEndList (s : List Char) : List Char :=
  (s.reverse.dropWhile isRustWhitespace).reverse

/-- `str::trim` (trimming the two ends is order-independent; we trim the
end first). -/
def trimList (s : List Char) : List Char :=
  trimStartList (trimEndList s)

/-- `str::strip_prefix` with a string pattern. -/
def stripPfx : List Char → List Char → Option (List Char)
  | [], s => some s
  | _ :: _, [] => none
  | p :: ps, c :: cs => if c = p then stripPfx ps cs else none

/-- `str::strip_suffix` with a string pattern. -/
def stripSfx (pat s : List Char) : Option (List Char) :=
  (stripPfx pat.reverse s.reverse).map List.reverse

/-- `str::split_once` with the predicate pattern
`|c: char| c.is_ascii_whitespace()`: split at the first ASCII-whitespace
character, which is consumed; `none` when no such character occurs. -/
def splitOnceWs : List Char → Option (List Char × List Char)
  | [] => none
  | c :: cs =>
    if isAsciiWhitespace c then some ([], cs)
    else
      match splitOnceWs cs with
      | some (k, v) => some (c :: k, v)
      | none => none

/-- `s.find('#')` followed by the slice `&s[0..idx]` (falling back to `s`
itself when no `#` occurs) keeps exactly the characters before the first
`#`, which is what `takeWhile` computes. -/
def stripComment (s : List Char) : List Char :=
  s.takeWhile (fun c => c ≠ '#')

/-- Largest `usize` value (the target is 64-bit). -/
def usizeMax : Nat := 2 ^ 64 - 1

/-- Accumulate decimal digits; `none` on the first non-digit. -/
def digitsToNatAux (acc : Nat) : List Char → Option Nat
  | [] => some acc
  | c :: cs => if c.isDigit then digitsToNatAux (acc * 10 + (c.toNat - 48)) cs else none

/-- `usize::from_str`: an optional leading `+`, then one or more ASCII
decimal digits, rejecting values above `usize::MAX` (checked-overflow
accumulation is equivalent to a final bound check). -/
def parseUsize (s : List Char) : Option Nat :=
  let ds := match s with
    | '+' :: rest => rest
    | _ => s
  match ds with
  | [] => none
  | _ :: _ =>
    match digitsToNatAux 0 ds with
    | some n => if n ≤ usizeMax then some n else none
    | none => none

/-- `HashMap::get` on the association-list model of the map: the entry
pushed most recently for a key shadows older ones, which models
`HashMap::insert` overwriting. -/
def mapLookup (k : List Char) : List (List Char × List Char) → Option (List Char)
  | [] => none
  | (k', v) :: rest => if k' = k then some v else mapLookup k rest

/-- The error conditions produced by the modelled fragment of `npd`. -/
inductive NpdError
  /-- `parse_state`: "failed to parse current song index `{current}`",
  carrying the unparsable (untrimmed) remainder of the `current:` line. -/
  | parseIndex (remainder : List Char)
  /-- `parse_state`: "failed to find currently playing song in MPD state
  file contents". -/
  | songNotFound
  /-- `run`: the `ensure!` message "failed to find MPD state file at
  `{path}`" after the materialization retries are exhausted. -/
  | stateFileMissing
deriving DecidableEq

instance {ε α : Type} [DecidableEq ε] [DecidableEq α] : DecidableEq (Except ε α) :=
  fun x y =>
    match x, y with
    | Except.error a, Except.error b =>
      if h : a = b then isTrue (by rw [h]) else isFalse (fun hc => h (by cases hc; rfl))
    | Except.ok a, Except.ok b =>
      if h : a = b then isTrue (by rw [h]) else isFalse (fun hc => h (by cases hc; rfl))
    | Except.error _, Except.ok _ => isFalse (fun hc => by cases hc)
    | Except.ok _, Except.error _ => isFalse (fun hc => by cases hc)

/-- One `read_line` outcome. -/
abbrev ReadLine := Except Unit (List Char)

/-- The per-line body of `parse_config`'s loop: trim, cut at the first
`#`, split at the first ASCII whitespace into key and remainder, trim the
remainder, strip at most one leading and one trailing `"`.  Lines with no
whitespace split produce no entry. -/
def parseConfigLine (line : List Char) : Option (List Char × List Char) :=
  let s := trimList line
  let s := stripComment s
  match splitOnceWs s with
  | some (key, value) =>
    let value := trimList value
    let value := (stripPfx ['"'] value).getD value
    let value := (stripSfx ['"'] value).getD value
    some (key, value)
  | none => none

/-- The `while let Ok(len) = reader.read_line(..)` loop of `parse_config`:
a read error or end of input both end the loop with the values collected
so far. -/
def parse_config_go (values : List (List Char × List Char)) :
    List ReadLine → List (List Char × List Char)
  | [] => values
  | Except.error _ :: _ => values
  | Except.ok line :: rest =>
    match parseConfigLine line with
    | some (k, v) => parse_config_go ((k, v) :: values) rest
    | none => parse_config_go values rest

/-- `parse_config`: builds the key/value map and unconditionally returns
`Ok(values)` once the loop stops. -/
def parse_config (reader : List ReadLine) :
    Except NpdError (List (List Char × List Char)) :=
  Except.ok (parse_config_go [] reader)

/-- The literal prefix `"current:"` searched for by `parse_state`. -/
def currentLit : List Char := "current:".toList

/-- `format!("{current}:")` for the parsed index: its canonical decimal
rendering followed by a colon. -/
def currentPfxOf (n : Nat) : List Char := (Nat.repr n).toList ++ [':']

/-- The second phase of `parse_state`'s loop (`current_prefix` is `Some`):
scan for the first line starting with the computed prefix and return its
trimmed remainder; end of input or a read error fall through to the final
`bail!`. -/
def scanPlaylist (pfx : List Char) : List ReadLine → Except NpdError (List Char)
  | [] => Except.error NpdError.songNotFound
  | Except.error _ :: _ => Except.error NpdError.songNotFound
  | Except.ok line :: rest =>
    match stripPfx pfx line with
    | some current => Except.ok (trimList current)
    | none => scanPlaylist pfx rest

/-- The first phase of `parse_state`'s loop (`current_prefix` is `None`):
scan for a line starting with `current:`, parse its trimmed remainder as
a `usize` (failing on an unparsable remainder) and switch to the playlist
scan with the rendered prefix; end of input or a read error fall through
to the final `bail!`. -/
def parse_state : List ReadLine → Except NpdError (List Char)
  | [] => Except.error NpdError.songNotFound
  | Except.error _ :: _ => Except.error NpdError.songNotFound
  | Except.ok line :: rest =>
    match stripPfx currentLit line with
    | some current =>
      match parseUsize (trimList current) with
      | some n => scanPlaylist (currentPfxOf n) rest
      | none => Except.error (NpdError.parseIndex current)
    | none => parse_state rest

/-- The comparison step at the end of `run`'s loop body: if the observed
identity differs from the stored previous one and is present, notify with
it as the summary; the stored previous identity is then overwritten with
the observation in every case.  Returns the notifications fired by this
step together with the new stored previous identity. -/
def compareStep (previous current : Option String) :
    List String × Option String :=
  ((if current ≠ previous then
      match current with
      | some c => [c]
      | none => []
    else []), current)

/-- Fold `compareStep` over a sequence of observed identities, recording
for every observation the notifications it fired together with the stored
previous identity after the step. -/
def runComparisons (previous : Option String) :
    List (Option String) → List (List String × Option String)
  | [] => []
  | c :: cs =>
    let st := compareStep previous c
    st :: runComparisons st.2 cs

/-- The `ensure!(i < 500, ..)` bound of `run`'s materialization wait. -/
def attemptCap : Nat := 500

/-- The `while !path.exists()` wait in `run`, with the filesystem
abstracted as the predicate `ex` giving the outcome of the existence
check at each successive poll.  `t` counts the polls made so far and
`remaining` is the number of additional polls the `ensure!` still allows
(`attemptCap - 1 - t`); on success the index of the successful poll is
returned. -/
def waitForFile (ex : Nat → Bool) : Nat → Nat → Except NpdError Nat
  | t, remaining =>
    if ex t then Except.ok t
    else
      match remaining with
      | 0 => Except.error NpdError.stateFileMissing
      | r + 1 => waitForFile ex (t + 1) r

/-- The whole materialization wait: starting at poll `0` with counter
`i = 0`, the `ensure!(i < 500)` permits `attemptCap - 1` further polls
after the first one. -/
def materialize (ex : Nat → Bool) : Except NpdError Nat :=
  waitForFile ex 0 (attemptCap - 1)

/-! ### Helper lemmas about the string primitives -/

lemma dropWhile_append_cons (p : Char → Bool) (a : List Char) (x : Char)
    (b : List Char) (hx : p x = false) :
    (a ++ x :: b).dropWhile p = a.dropWhile p ++ x :: b := by
  induction a with
  | nil => simp [List.dropWhile_cons, hx]
  | cons c t ih =>
    by_cases hc : p c
    · simpa [List.dropWhile_cons, hc] using ih
    · simp [List.dropWhile_cons, hc]

lemma dropWhile_eq_nil_of_all (p : Char → Bool) (s : List Char)
    (h : ∀ c ∈ s, p c = true) : s.dropWhile p = [] := by
  induction s with
  | nil => rfl
  | cons c t ih =>
    have hc := h c (by simp)
    simp only [List.dropWhile_cons, hc, if_true]
    exact ih fun d hd => h d (by simp [hd])

lemma takeWhile_append_of_all (p : Char → Bool) (a b : List Char)
    (h : ∀ c ∈ a, p c = true) :
    (a ++ b).takeWhile p = a ++ b.takeWhile p := by
  induction a with
  | nil => simp
  | cons c t ih =>
    have hc := h c (by simp)
    simp only [List.cons_append, List.takeWhile_cons, hc, if_true]
    rw [ih fun d hd => h d (by simp [hd])]

lemma trimStart_cons (x : Char) (s : List Char) (hx : isRustWhitespace x = false) :
    trimStartList (x :: s) = x :: s := by
  simp [trimStartList, List.dropWhile_cons, hx]

lemma trimEnd_append_cons (s : List Char) (x : Char) (c : List Char)
    (hx : isRustWhitespace x = false) :
    trimEndList (s ++ x :: c) = s ++ x :: trimEndList c := by
  unfold trimEndList
  rw [List.reverse_append, List.reverse_cons, List.append_assoc,
    List.singleton_append, dropWhile_append_cons _ _ _ _ hx]
  simp

lemma trimEnd_append_last (s : List Char) (x : Char)
    (hx : isRustWhitespace x = false) :
    trimEndList (s ++ [x]) = s ++ [x] := by
  simpa [trimEndList] using trimEnd_append_cons s x [] hx

lemma trimEnd_nil : trimEndList [] = [] := rfl

lemma trimEnd_of_all_ws (s : List Char) (h : ∀ c ∈ s, isRustWhitespace c = true) :
    trimEndList s = [] := by
  unfold trimEndList
  rw [dropWhile_eq_nil_of_all _ _ fun c hc => h c (List.mem_reverse.mp hc)]
  rfl

lemma splitOnceWs_sep (k r : List Char)
    (hk : ∀ c ∈ k, isAsciiWhitespace c = false) :
    splitOnceWs (k ++ ' ' :: r) = some (k, r) := by
  induction k with
  | nil =>
    simp only [List.nil_append, splitOnceWs, show isAsciiWhitespace ' ' = true from rfl,
      if_true]
  | cons c t ih =>
    have hc := hk c (by simp)
    have ht := ih fun d hd => hk d (by simp [hd])
    simp only [List.cons_append, splitOnceWs, hc, Bool.false_eq_true, if_false]
    simp only [List.append_eq] at ht ⊢
    rw [ht]

lemma stripPfx_append (p s : List Char) : stripPfx p (p ++ s) = some s := by
  induction p with
  | nil => rfl
  | cons c t ih => simp [stripPfx, ih]

lemma stripPfx_quote_nil : stripPfx ['"'] [] = none := rfl

lemma stripPfx_quote_cons (c : Char) (s : List Char) (hc : c ≠ '"') :
    stripPfx ['"'] (c :: s) = none := by
  simp [stripPfx, hc]

lemma stripPfx_quote_of_all (s : List Char) (h : ∀ c ∈ s, c ≠ '"') :
    stripPfx ['"'] s = none := by
  cases s with
  | nil => rfl
  | cons c t => exact stripPfx_quote_cons c t (h c (by simp))

lemma stripSfx_append_quote (s : List Char) :
    stripSfx ['"'] (s ++ ['"']) = some s := by
  unfold stripSfx
  rw [show (['"'] : List Char).reverse = ['"'] from rfl,
    show (s ++ ['"']).reverse = '"' :: s.reverse by simp]
  simp [stripPfx]

lemma stripSfx_quote_of_all (s : List Char) (h : ∀ c ∈ s, c ≠ '"') :
    stripSfx ['"'] s = none := by
  unfold stripSfx
  rw [show (['"'] : List Char).reverse = ['"'] from rfl,
    stripPfx_quote_of_all s.reverse fun c hc => h c (List.mem_reverse.mp hc)]
  rfl

lemma dropWhile_eq_self_of_all_neg (p : Char → Bool) (s : List Char)
    (h : ∀ c ∈ s, p c = false) : s.dropWhile p = s := by
  cases s with
  | nil => rfl
  | cons c t => simp [List.dropWhile_cons, h c (by simp)]

lemma takeWhile_eq_self_of_all (p : Char → Bool) (s : List Char)
    (h : ∀ c ∈ s, p c = true) : s.takeWhile p = s := by
  simpa using takeWhile_append_of_all p s [] h

lemma trimList_eq_self_of_all (s : List Char)
    (h : ∀ c ∈ s, isRustWhitespace c = false) : trimList s = s := by
  unfold trimList trimEndList trimStartList
  rw [dropWhile_eq_self_of_all_neg _ s.reverse fun c hc => h c (List.mem_reverse.mp hc),
    List.reverse_reverse, dropWhile_eq_self_of_all_neg _ s h]

lemma asciiWs_eq_false_of_rust (c : Char) (h : isRustWhitespace c = false) :
    isAsciiWhitespace c = false := by
  simp only [isRustWhitespace, Bool.or_eq_false_iff] at h
  simp only [isAsciiWhitespace, Bool.or_eq_false_iff]
  exact ⟨⟨⟨⟨h.1.1.1.1.1.1.1.1.1.2, h.1.1.1.1.1.1.1.1.1.1.1.1.1.1⟩,
    h.1.1.1.1.1.1.1.1.1.1.1.1.1.2⟩, h.1.1.1.1.1.1.1.1.1.1.1.2⟩,
    h.1.1.1.1.1.1.1.1.1.1.2⟩

/-! ### Structural lemmas about `parse_state` and `parse_config` -/

lemma parse_state_skip (pre : List (List Char)) (rest : List ReadLine)
    (h : ∀ l ∈ pre, stripPfx currentLit l = none) :
    parse_state (pre.map Except.ok ++ rest) = parse_state rest := by
  induction pre with
  | nil => rfl
  | cons l t ih =>
    simp only [List.map_cons, List.cons_append, parse_state, h l (by simp)]
    exact ih fun d hd => h d (by simp [hd])

lemma parse_state_current_ok (idxRem : List Char) (n : Nat) (rest : List ReadLine)
    (h : parseUsize (trimList idxRem) = some n) :
    parse_state (Except.ok (currentLit ++ idxRem) :: rest) =
      scanPlaylist (currentPfxOf n) rest := by
  simp only [parse_state, stripPfx_append, h]

lemma parse_state_current_err (idxRem : List Char) (rest : List ReadLine)
    (h : parseUsize (trimList idxRem) = none) :
    parse_state (Except.ok (currentLit ++ idxRem) :: rest) =
      Except.error (NpdError.parseIndex idxRem) := by
  simp only [parse_state, stripPfx_append, h]

lemma scanPlaylist_skip (pfx : List Char) (mid : List (List Char))
    (rest : List ReadLine) (h : ∀ l ∈ mid, stripPfx pfx l = none) :
    scanPlaylist pfx (mid.map Except.ok ++ rest) = scanPlaylist pfx rest := by
  induction mid with
  | nil => rfl
  | cons l t ih =>
    simp only [List.map_cons, List.cons_append, scanPlaylist, h l (by simp)]
    exact ih fun d hd => h d (by simp [hd])

lemma scanPlaylist_hit (pfx entry : List Char) (rest : List ReadLine) :
    scanPlaylist pfx (Except.ok (pfx ++ entry) :: rest) =
      Except.ok (trimList entry) := by
  simp only [scanPlaylist, stripPfx_append]

lemma scanPlaylist_cut (pfx : List Char) (pre rest : List ReadLine) :
    scanPlaylist pfx (pre ++ Except.error () :: rest) = scanPlaylist pfx pre := by
  induction pre with
  | nil => rfl
  | cons hd t ih =>
    cases hd with
    | error e => rfl
    | ok l =>
      rcases hs : stripPfx pfx l with _ | current
      · simp only [List.cons_append, scanPlaylist, hs]
        exact ih
      · simp only [List.cons_append, scanPlaylist, hs]

lemma parse_state_cut (pre rest : List ReadLine) :
    parse_state (pre ++ Except.error () :: rest) = parse_state pre := by
  induction pre with
  | nil => rfl
  | cons hd t ih =>
    cases hd with
    | error e => rfl
    | ok l =>
      rcases hs : stripPfx currentLit l with _ | current
      · simp only [List.cons_append, parse_state, hs]
        exact ih
      · rcases hn : parseUsize (trimList current) with _ | n
        · simp only [List.cons_append, parse_state, hs, hn]
        · simp only [List.cons_append, parse_state, hs, hn]
          exact scanPlaylist_cut (currentPfxOf n) t rest

lemma parse_config_go_cut (acc : List (List Char × List Char))
    (pre rest : List ReadLine) :
    parse_config_go acc (pre ++ Except.error () :: rest) =
      parse_config_go acc pre := by
  induction pre generalizing acc with
  | nil => rfl
  | cons hd t ih =>
    cases hd with
    | error e => rfl
    | ok l =>
      rcases hl : parseConfigLine l with _ | ⟨k', v'⟩
      · simp only [List.cons_append, parse_config_go, hl]
        exact ih acc
      · simp only [List.cons_append, parse_config_go, hl]
        exact ih ((k', v') :: acc)

lemma parse_config_go_append_ok (xs : List (List Char))
    (acc : List (List Char × List Char)) (ys : List ReadLine) :
    parse_config_go acc (xs.map Except.ok ++ ys) =
      parse_config_go (parse_config_go acc (xs.map Except.ok)) ys := by
  induction xs generalizing acc with
  | nil => rfl
  | cons l t ih =>
    rcases hl : parseConfigLine l with _ | ⟨k', v'⟩
    · simp only [List.map_cons, List.cons_append, parse_config_go, hl]
      exact ih acc
    · simp only [List.map_cons, List.cons_append, parse_config_go, hl]
      exact ih ((k', v') :: acc)

lemma parse_config_go_lookup_pres (k v : List Char) (post : List (List Char))
    (acc : List (List Char × List Char))
    (hpost : ∀ l ∈ post, ∀ v', parseConfigLine l ≠ some (k, v'))
    (hacc : mapLookup k acc = some v) :
    mapLookup k (parse_config_go acc (post.map Except.ok)) = some v := by
  induction post generalizing acc with
  | nil => exact hacc
  | cons l t ih =>
    rcases hl : parseConfigLine l with _ | ⟨k', v'⟩
    · simp only [List.map_cons, parse_config_go, hl]
      exact ih acc (fun d hd => hpost d (by simp [hd])) hacc
    · simp only [List.map_cons, parse_config_go, hl]
      refine ih ((k', v') :: acc) (fun d hd => hpost d (by simp [hd])) ?_
      have hk : k' ≠ k := by
        intro he
        exact hpost l (by simp) v' (by rw [hl, he])
      simp only [mapLookup, hk, if_false]
      exact hacc

lemma waitForFile_fail (ex : Nat → Bool) :
    ∀ (r t : Nat), (∀ u, t ≤ u → u ≤ t + r → ex u = false) →
      waitForFile ex t r = Except.error NpdError.stateFileMissing := by
  intro r
  induction r with
  | zero =>
    intro t h
    rw [waitForFile.eq_def]
    simp only [h t le_rfl (by omega), Bool.false_eq_true, if_false]
  | succ r ih =>
    intro t h
    rw [waitForFile.eq_def]
    simp only [h t le_rfl (by omega), Bool.false_eq_true, if_false]
    exact ih (t + 1) fun u hu1 hu2 => h u (by omega) (by omega)

lemma waitForFile_hit (ex : Nat → Bool) :
    ∀ (d t r : Nat), d ≤ r → (∀ u, u < d → ex (t + u) = false) →
      ex (t + d) = true → waitForFile ex t r = Except.ok (t + d) := by
  intro d
  induction d with
  | zero =>
    intro t r _ _ hx
    simp only [Nat.add_zero] at hx ⊢
    rw [waitForFile.eq_def]
    simp only [hx, if_true]
  | succ d ih =>
    intro t r hdr hlow hx
    have ht : ex t = false := by simpa using hlow 0 (by omega)
    obtain ⟨r', rfl⟩ : ∃ r', r = r' + 1 := ⟨r - 1, by omega⟩
    rw [waitForFile.eq_def]
    simp only [ht, Bool.false_eq_true, if_false]
    have := ih (t + 1) r' (by omega)
      (fun u hu => by
        have := hlow (u + 1) (by omega)
        simpa [Nat.add_assoc, Nat.add_comm 1 u] using this)
      (by simpa [Nat.add_assoc, Nat.add_comm 1 d] using hx)
    simpa [Nat.add_assoc, Nat.add_comm 1 d] using this

/-! ### Claim theorems -/

/-- C1: fed the observation sequence `[None, "a", "a", "b", "b", "a"]`
with the stored previous identity initially absent, the comparison step
fires exactly three notifications, at the transitions `None→"a"`,
`"a"→"b"` and `"b"→"a"`, none at the repeated `"a"` or `"b"`
observations, and after every comparison the stored previous identity
equals the identity just observed. -/
theorem npd_change_detection_sequence :
    runComparisons none
        [none, some "a", some "a", some "b", some "b", some "a"] =
      [([], none), (["a"], some "a"), ([], some "a"),
        (["b"], some "b"), ([], some "b"), (["a"], some "a")] ∧
    ((runComparisons none
        [none, some "a", some "a", some "b", some "b", some "a"]).map
      Prod.fst).flatten = ["a", "b", "a"] := by
  constructor <;> rfl

/-- C10: a transition from a present identity to an absent one produces
no notification yet still overwrites the stored previous identity with
`none`; consequently, for the observation sequence `["a", None, "a"]`, a
notification for `"a"` fires twice. -/
theorem npd_notify_after_absence :
    (∀ x : String, compareStep (some x) none = ([], none)) ∧
    runComparisons none [some "a", none, some "a"] =
      [(["a"], some "a"), ([], none), (["a"], some "a")] ∧
    ((runComparisons none [some "a", none, some "a"]).map Prod.fst).flatten =
      ["a", "a"] := by
  refine ⟨fun x => ?_, rfl, rfl⟩
  simp [compareStep]

/-- C5: when the awaited path never comes to exist the materialization
wait fails (after its cap of `attemptCap = 500` poll iterations: only the
outcomes of the first `attemptCap` polls matter, and the second conjunct
at `t0 = attemptCap - 1` shows the poll with index `attemptCap - 1` — the
500th — is still made); whenever the path exists at some poll within the
cap, the wait succeeds at exactly that poll. -/
theorem npd_materialization_bound :
    (∀ ex : Nat → Bool, (∀ t, t < attemptCap → ex t = false) →
      materialize ex = Except.error NpdError.stateFileMissing) ∧
    (∀ (ex : Nat → Bool) (t0 : Nat), t0 < attemptCap →
      (∀ t, t < t0 → ex t = false) → ex t0 = true →
      materialize ex = Except.ok t0) := by
  constructor
  · intro ex h
    exact waitForFile_fail ex (attemptCap - 1) 0 fun u hu1 hu2 => h u (by
      have hc : attemptCap = 500 := rfl
      omega)
  · intro ex t0 h0 hlow hx
    have hc : attemptCap = 500 := rfl
    have := waitForFile_hit ex t0 0 (attemptCap - 1) (by omega)
      (fun u hu => by simpa using hlow u hu) (by simpa using hx)
    simpa [materialize] using this

/-- Witness for C5: with a path that never exists the wait fails; with a
path that first exists at poll 3 it succeeds at poll 3. -/
theorem npd_materialization_bound_witness :
    materialize (fun _ => false) = Except.error NpdError.stateFileMissing ∧
    materialize (fun t => decide (t = 3)) = Except.ok 3 :=
  ⟨npd_materialization_bound.1 _ fun t _ => rfl,
    npd_materialization_bound.2 _ 3 (by decide)
      (fun t ht => by simp only [decide_eq_false_iff_not]; omega) (by decide)⟩

/-- C9: the playlist scan matches lines against the canonical decimal
rendering of the parsed index (`currentPfxOf n`), not the literal text of
the `current:` line; concretely, for a dump with `current: 06` a line
`06:...` does not match while `6:...` does. -/
theorem npd_state_parser_canonical_index :
    (∀ (idxRem : List Char) (n : Nat) (rest : List ReadLine),
      parseUsize (trimList idxRem) = some n →
      parse_state (Except.ok (currentLit ++ idxRem) :: rest) =
        scanPlaylist (currentPfxOf n) rest) ∧
    parse_state (["current: 06\n", "06:wrong.opus\n", "6:right.opus\n"].map
        (fun s => Except.ok s.toList)) =
      Except.ok "right.opus".toList := by
  exact ⟨fun idxRem n rest h => parse_state_current_ok idxRem n rest h, by decide⟩

/-- Witness for C9: the remainder ` 06` (leading zero) parses to the
index 6 and the parser then scans with the canonical prefix `6:`. -/
theorem npd_state_parser_canonical_index_witness :
    parse_state [Except.ok "current: 06\n".toList,
        Except.ok "06:wrong.opus\n".toList, Except.ok "6:right.opus\n".toList] =
      scanPlaylist (currentPfxOf 6)
        [Except.ok "06:wrong.opus\n".toList, Except.ok "6:right.opus\n".toList] :=
  npd_state_parser_canonical_index.1 " 06\n".toList 6
    [Except.ok "06:wrong.opus\n".toList, Except.ok "6:right.opus\n".toList]
    (by decide)

/-- C2: for every dump in which the scan's `current:` line (the first
line with that prefix) has a trimmed remainder parsing as `N` and some
later line starts with the prefix `N:`, `parse_state` returns the trimmed
remainder of the first such later line, independently of everything after
it (the scan stops at that line: the result does not depend on `rest`). -/
theorem npd_state_parser_returns_first_match
    (pre mid : List (List Char)) (idxRem entry : List Char) (n : Nat)
    (rest : List ReadLine)
    (hpre : ∀ l ∈ pre, stripPfx currentLit l = none)
    (hidx : parseUsize (trimList idxRem) = some n)
    (hmid : ∀ l ∈ mid, stripPfx (currentPfxOf n) l = none) :
    parse_state (pre.map Except.ok ++ Except.ok (currentLit ++ idxRem) ::
        (mid.map Except.ok ++ Except.ok (currentPfxOf n ++ entry) :: rest)) =
      Except.ok (trimList entry) := by
  rw [parse_state_skip pre _ hpre, parse_state_current_ok _ _ _ hidx,
    scanPlaylist_skip _ mid _ hmid, scanPlaylist_hit]

/-- Witness for C2: the spec's example dump, `current: 6` followed by
`6:by-artist/various/adele_-_someone_like_you.opus`. -/
theorem npd_state_parser_returns_first_match_witness :
    parse_state [Except.ok "current: 6\n".toList,
        Except.ok "6:by-artist/various/adele_-_someone_like_you.opus\n".toList] =
      Except.ok "by-artist/various/adele_-_someone_like_you.opus".toList :=
  npd_state_parser_returns_first_match [] [] " 6\n".toList
    "by-artist/various/adele_-_someone_like_you.opus\n".toList 6 []
    (by simp) (by decide) (by simp)

/-- C3: `parse_state` fails when (1) no line starts with `current:`; (2)
the scan's `current:` line (the first one) has a trimmed remainder that
does not parse as a non-negative integer; (3) the index parses but no
later line starts with the rendered prefix — with the "not found" error
in cases (1) and (3) and the index-parse error in case (2). -/
theorem npd_state_parser_failure_cases :
    (∀ ls : List (List Char), (∀ l ∈ ls, stripPfx currentLit l = none) →
      parse_state (ls.map Except.ok) = Except.error NpdError.songNotFound) ∧
    (∀ (pre : List (List Char)) (idxRem : List Char) (rest : List ReadLine),
      (∀ l ∈ pre, stripPfx currentLit l = none) →
      parseUsize (trimList idxRem) = none →
      parse_state (pre.map Except.ok ++ Except.ok (currentLit ++ idxRem) :: rest) =
        Except.error (NpdError.parseIndex idxRem)) ∧
    (∀ (pre mid : List (List Char)) (idxRem : List Char) (n : Nat),
      (∀ l ∈ pre, stripPfx currentLit l = none) →
      parseUsize (trimList idxRem) = some n →
      (∀ l ∈ mid, stripPfx (currentPfxOf n) l = none) →
      parse_state (pre.map Except.ok ++
          Except.ok (currentLit ++ idxRem) :: mid.map Except.ok) =
        Except.error NpdError.songNotFound) := by
  refine ⟨fun ls h => ?_, fun pre idxRem rest hpre hidx => ?_,
    fun pre mid idxRem n hpre hidx hmid => ?_⟩
  · have := parse_state_skip ls [] h
    simpa using this
  · rw [parse_state_skip pre _ hpre, parse_state_current_err _ _ hidx]
  · rw [parse_state_skip pre _ hpre, parse_state_current_ok _ _ _ hidx]
    have := scanPlaylist_skip (currentPfxOf n) mid [] hmid
    simpa using this

/-- Witness for C3: a dump without a `current:` line; a dump whose
`current:` remainder is not a number; a dump whose index 6 has no
matching `6:`-prefixed line. -/
theorem npd_state_parser_failure_cases_witness :
    parse_state [Except.ok "state: play\n".toList] =
      Except.error NpdError.songNotFound ∧
    parse_state [Except.ok "current: x\n".toList] =
      Except.error (NpdError.parseIndex " x\n".toList) ∧
    parse_state [Except.ok "current: 6\n".toList,
        Except.ok "5:other.opus\n".toList] =
      Except.error NpdError.songNotFound :=
  ⟨npd_state_parser_failure_cases.1 ["state: play\n".toList] (by decide),
    npd_state_parser_failure_cases.2.1 [] " x\n".toList [] (by simp) (by decide),
    npd_state_parser_failure_cases.2.2 [] ["5:other.opus\n".toList]
      " 6\n".toList 6 (by simp) (by decide) (by decide)⟩

/-- Counterexample for C4: on a source whose very first read fails, the
Config Text Parser does not propagate the read failure — it succeeds with
the (empty) mapping; and the State Text Parser reports its own
"not found" error rather than the read failure. -/
theorem npd_read_failure_cex :
    parse_config [Except.error ()] = Except.ok [] ∧
    parse_state [Except.ok "current: 6\n".toList, Except.error ()] =
      Except.error NpdError.songNotFound := by
  exact ⟨rfl, by decide⟩

/-- C4 (amended): a failed underlying read is treated by both parsers as
end of input (the `while let Ok(..)` loop simply stops): everything at and
after the first read failure is ignored; the Config Text Parser never
fails — for any source it returns a mapping — and malformed lines are
silently skipped. -/
theorem npd_read_failure_amended :
    (∀ pre rest : List ReadLine,
      parse_config (pre ++ Except.error () :: rest) = parse_config pre) ∧
    (∀ reader : List ReadLine, ∃ m, parse_config reader = Except.ok m) ∧
    (∀ pre rest : List ReadLine,
      parse_state (pre ++ Except.error () :: rest) = parse_state pre) ∧
    (∀ (l : List Char) (rest : List ReadLine), parseConfigLine l = none →
      parse_config (Except.ok l :: rest) = parse_config rest) := by
  refine ⟨fun pre rest => ?_, fun reader => ⟨parse_config_go [] reader, rfl⟩,
    fun pre rest => parse_state_cut pre rest, fun l rest hl => ?_⟩
  · unfold parse_config
    rw [parse_config_go_cut [] pre rest]
  · unfold parse_config
    simp only [parse_config_go, hl]

/-- Witness for C4 (amended): a read failure cuts off a config source
after one good line, cuts off a state source immediately, and the
malformed pure-comment line contributes nothing. -/
theorem npd_read_failure_amended_witness :
    parse_config [Except.ok "a 1\n".toList, Except.error (),
        Except.ok "b 2\n".toList] = parse_config [Except.ok "a 1\n".toList] ∧
    (∃ m, parse_config [Except.error ()] = Except.ok m) ∧
    parse_state [Except.error (), Except.ok "current: 6\n".toList] =
      parse_state [] ∧
    parse_config [Except.ok "# comment\n".toList] = parse_config [] :=
  ⟨npd_read_failure_amended.1 [Except.ok "a 1\n".toList] [Except.ok "b 2\n".toList],
    npd_read_failure_amended.2.1 [Except.error ()],
    npd_read_failure_amended.2.2.1 [] [Except.ok "current: 6\n".toList],
    npd_read_failure_amended.2.2.2 "# comment\n".toList [] (by decide)⟩

/-- C8: when the same key is produced by several lines, the mapping
returned by the Config Text Parser holds the value of the last such line:
looking up the key after the parse yields the value of the last line that
parses to that key. -/
theorem npd_config_last_key_wins
    (pre : List (List Char)) (l : List Char) (post : List (List Char))
    (k v : List Char) (m : List (List Char × List Char))
    (hl : parseConfigLine l = some (k, v))
    (hpost : ∀ l' ∈ post, ∀ v', parseConfigLine l' ≠ some (k, v'))
    (hm : parse_config ((pre ++ l :: post).map Except.ok) = Except.ok m) :
    mapLookup k m = some v := by
  have hm' : m = parse_config_go [] ((pre ++ l :: post).map Except.ok) := by
    have := hm.symm
    unfold parse_config at this
    exact (Except.ok.injEq _ _).mp this
  subst hm'
  rw [List.map_append, parse_config_go_append_ok pre [] _, List.map_cons]
  simp only [parse_config_go, hl]
  exact parse_config_go_lookup_pres k v post _
    hpost (by simp [mapLookup])

/-- Witness for C8: `k a` followed by `k b` yields `b` for `k`. -/
theorem npd_config_last_key_wins_witness :
    mapLookup "k".toList
        [("k".toList, "b".toList), ("k".toList, "a".toList)] =
      some "b".toList :=
  npd_config_last_key_wins ["k a\n".toList] "k b\n".toList [] "k".toList
    "b".toList [("k".toList, "b".toList), ("k".toList, "a".toList)]
    (by decide) (by simp) (by decide)

lemma stripPfx_quote_head (s : List Char) : stripPfx ['"'] ('"' :: s) = some s := by
  simp [stripPfx]

lemma exists_last_not_ws (v : List Char)
    (h : ∃ ch ∈ v, isRustWhitespace ch = false) :
    ∃ v1 ch v2, v = v1 ++ ch :: v2 ∧ isRustWhitespace ch = false ∧
      ∀ x ∈ v2, isRustWhitespace x = true := by
  induction v using List.reverseRecOn with
  | nil => simp at h
  | append_singleton vs x ih =>
    by_cases hx : isRustWhitespace x = true
    · have h' : ∃ ch ∈ vs, isRustWhitespace ch = false := by
        rcases h with ⟨ch, hm, hws⟩
        rcases List.mem_append.mp hm with h1 | h2
        · exact ⟨ch, h1, hws⟩
        · rw [List.mem_singleton.mp h2, hx] at hws
          cases hws
      rcases ih h' with ⟨v1, ch, v2, hv, hch, hall⟩
      refine ⟨v1, ch, v2 ++ [x], by rw [hv]; simp, hch, ?_⟩
      intro y hy
      rcases List.mem_append.mp hy with h1 | h2
      · exact hall y h1
      · rw [List.mem_singleton.mp h2]
        exact hx
    · exact ⟨vs, x, [], rfl, by simpa using hx, by simp⟩

/-- Computation of `parseConfigLine` on a line `key SP remainder` with a
well-formed key, a `#`-free remainder containing at least one
non-whitespace character, and no comment. -/
lemma parseConfigLine_plain (k v : List Char) (hk0 : k ≠ [])
    (hk : ∀ ch ∈ k, isRustWhitespace ch = false ∧ ch ≠ '#')
    (hvh : ∀ ch ∈ v, ch ≠ '#')
    (hvw : ∃ ch ∈ v, isRustWhitespace ch = false) :
    parseConfigLine (k ++ ' ' :: v) =
      some (k, (stripSfx ['"'] ((stripPfx ['"'] (trimList v)).getD (trimList v))).getD
        ((stripPfx ['"'] (trimList v)).getD (trimList v))) := by
  obtain ⟨v1, ch0, v2, rfl, hch0, hv2⟩ := exists_last_not_ws v hvw
  obtain ⟨a, k', rfl⟩ := List.exists_cons_of_ne_nil hk0
  have hka : isRustWhitespace a = false := (hk a (by simp)).1
  have h1 : trimList ((a :: k') ++ ' ' :: (v1 ++ ch0 :: v2)) =
      (a :: k') ++ ' ' :: (v1 ++ [ch0]) := by
    unfold trimList
    rw [show (a :: k') ++ ' ' :: (v1 ++ ch0 :: v2)
        = ((a :: k') ++ ' ' :: v1) ++ ch0 :: v2 by simp,
      trimEnd_append_cons _ _ _ hch0, trimEnd_of_all_ws v2 hv2,
      show ((a :: k') ++ ' ' :: v1) ++ ch0 :: ([] : List Char)
        = a :: (k' ++ ' ' :: (v1 ++ [ch0])) by simp]
    exact trimStart_cons _ _ hka
  have h2 : stripComment ((a :: k') ++ ' ' :: (v1 ++ [ch0])) =
      (a :: k') ++ ' ' :: (v1 ++ [ch0]) := by
    apply takeWhile_eq_self_of_all
    intro c hc
    rcases List.mem_append.mp hc with h | h
    · exact decide_eq_true (hk c h).2
    · rcases List.mem_cons.mp h with h | h
      · rw [h]
        decide
      · rcases List.mem_append.mp h with h | h
        · exact decide_eq_true (hvh c (by simp [h]))
        · rw [List.mem_singleton.mp h]
          exact decide_eq_true (hvh ch0 (by simp))
  have h3 : splitOnceWs ((a :: k') ++ ' ' :: (v1 ++ [ch0])) =
      some (a :: k', v1 ++ [ch0]) :=
    splitOnceWs_sep _ _ fun c hc => asciiWs_eq_false_of_rust c (hk c hc).1
  have h4 : trimList (v1 ++ [ch0]) = trimList (v1 ++ ch0 :: v2) := by
    unfold trimList
    rw [trimEnd_append_cons v1 ch0 v2 hch0, trimEnd_of_all_ws v2 hv2,
      trimEnd_append_last v1 ch0 hch0]
  simp only [parseConfigLine, h1, h2, h3, h4]

/-- Computation of `parseConfigLine` on a line `key SP value # comment`:
the first `#` and everything after it are discarded before the key/value
split, whatever `c` is. -/
lemma parseConfigLine_comment (k v c : List Char) (hk0 : k ≠ [])
    (hk : ∀ ch ∈ k, isRustWhitespace ch = false ∧ ch ≠ '#')
    (hvh : ∀ ch ∈ v, ch ≠ '#') :
    parseConfigLine (k ++ ' ' :: v ++ '#' :: c) =
      some (k, (stripSfx ['"'] ((stripPfx ['"'] (trimList v)).getD (trimList v))).getD
        ((stripPfx ['"'] (trimList v)).getD (trimList v))) := by
  obtain ⟨a, k', rfl⟩ := List.exists_cons_of_ne_nil hk0
  have hka : isRustWhitespace a = false := (hk a (by simp)).1
  have h1 : trimList ((a :: k') ++ ' ' :: v ++ '#' :: c) =
      ((a :: k') ++ ' ' :: v) ++ '#' :: trimEndList c := by
    unfold trimList
    rw [show (a :: k') ++ ' ' :: v ++ '#' :: c
        = ((a :: k') ++ ' ' :: v) ++ '#' :: c by simp,
      trimEnd_append_cons _ _ _ (by decide),
      show ((a :: k') ++ ' ' :: v) ++ '#' :: trimEndList c
        = a :: (k' ++ ' ' :: v ++ '#' :: trimEndList c) by simp,
      trimStart_cons _ _ hka]
  have h2 : stripComment (((a :: k') ++ ' ' :: v) ++ '#' :: trimEndList c) =
      (a :: k') ++ ' ' :: v := by
    unfold stripComment
    rw [takeWhile_append_of_all _ _ _ ?_]
    · rw [List.takeWhile_cons]
      simp
    · intro ch hc
      rcases List.mem_append.mp hc with h | h
      · exact decide_eq_true (hk ch h).2
      · rcases List.mem_cons.mp h with h | h
        · rw [h]
          decide
        · exact decide_eq_true (hvh ch h)
  have h3 : splitOnceWs ((a :: k') ++ ' ' :: v) = some (a :: k', v) :=
    splitOnceWs_sep _ _ fun ch hc => asciiWs_eq_false_of_rust ch (hk ch hc).1
  simp only [parseConfigLine, h1, h2, h3]

/-- C6: the extracted value of a configuration line `key value#comment`
excludes everything from the first `#` onward, unconditionally: the
parse result equals that of the line with `#` and the comment removed,
for every comment — including when the `#` lies inside a double-quoted
value, which is therefore truncated (second conjunct: `key "a#b"` yields
the truncated value `a`). -/
theorem npd_config_comment_stripping :
    (∀ k v c : List Char, k ≠ [] →
      (∀ ch ∈ k, isRustWhitespace ch = false ∧ ch ≠ '#') →
      (∀ ch ∈ v, ch ≠ '#') →
      (∃ ch ∈ v, isRustWhitespace ch = false) →
      parseConfigLine (k ++ ' ' :: v ++ '#' :: c) =
        parseConfigLine (k ++ ' ' :: v)) ∧
    parseConfigLine "key \"a#b\"".toList = some ("key".toList, "a".toList) := by
  refine ⟨fun k v c hk0 hk hvh hvw => ?_, by decide⟩
  rw [parseConfigLine_comment k v c hk0 hk hvh,
    parseConfigLine_plain k v hk0 hk hvh hvw]

/-- Witness for C6: on the line `key "a#b"` the parse result equals that
of the truncated line `key "a` — the quoted value is cut at the `#`. -/
theorem npd_config_comment_stripping_witness :
    parseConfigLine "key \"a#b\"".toList = parseConfigLine "key \"a".toList :=
  npd_config_comment_stripping.1 "key".toList "\"a".toList "b\"".toList
    (by decide) (by decide) (by decide) (by decide)

/-- C7: the Config Text Parser strips at most one leading and at most one
trailing double-quote from the trimmed remainder, each independently of
the other: `key "v"` yields `v`, `key v` yields `v`, `key "v` (unbalanced
leading quote) also yields `v`, and `key ""v""` loses only one quote from
each side. -/
theorem npd_config_quote_stripping (k v : List Char)
    (hk0 : k ≠ []) (hv0 : v ≠ [])
    (hk : ∀ c ∈ k, isRustWhitespace c = false ∧ c ≠ '#')
    (hv : ∀ c ∈ v, isRustWhitespace c = false ∧ c ≠ '#' ∧ c ≠ '"') :
    parseConfigLine (k ++ ' ' :: ('"' :: v ++ ['"'])) = some (k, v) ∧
    parseConfigLine (k ++ ' ' :: v) = some (k, v) ∧
    parseConfigLine (k ++ ' ' :: ('"' :: v)) = some (k, v) ∧
    parseConfigLine (k ++ ' ' :: ('"' :: '"' :: v ++ ['"', '"'])) =
      some (k, '"' :: v ++ ['"']) := by
  have hq : ∀ c ∈ v, c ≠ '"' := fun c hc => (hv c hc).2.2
  have hvh : ∀ c ∈ v, c ≠ '#' := fun c hc => (hv c hc).2.1
  have hvns : ∀ c ∈ v, isRustWhitespace c = false := fun c hc => (hv c hc).1
  refine ⟨?_, ?_, ?_, ?_⟩
  · have hall : ∀ c ∈ '"' :: v ++ ['"'], isRustWhitespace c = false := by
      intro c hc
      rcases List.mem_cons.mp hc with h | h
      · rw [h]; decide
      · rcases List.mem_append.mp h with h | h
        · exact hvns c h
        · rw [List.mem_singleton.mp h]; decide
    rw [parseConfigLine_plain k _ hk0 hk
        (by
          intro c hc
          rcases List.mem_cons.mp hc with h | h
          · rw [h]; decide
          · rcases List.mem_append.mp h with h | h
            · exact hvh c h
            · rw [List.mem_singleton.mp h]; decide)
        ⟨'"', by simp, by decide⟩,
      trimList_eq_self_of_all _ hall]
    simp only [List.cons_append]
    rw [stripPfx_quote_head, Option.getD_some, stripSfx_append_quote,
      Option.getD_some]
  · rw [parseConfigLine_plain k v hk0 hk hvh
        (by
          obtain ⟨c, t, hv'⟩ := List.exists_cons_of_ne_nil hv0
          exact ⟨c, by rw [hv']; simp, hvns c (by rw [hv']; simp)⟩),
      trimList_eq_self_of_all v hvns, stripPfx_quote_of_all v hq,
      Option.getD_none, stripSfx_quote_of_all v hq, Option.getD_none]
  · have hall : ∀ c ∈ '"' :: v, isRustWhitespace c = false := by
      intro c hc
      rcases List.mem_cons.mp hc with h | h
      · rw [h]; decide
      · exact hvns c h
    rw [parseConfigLine_plain k _ hk0 hk
        (by
          intro c hc
          rcases List.mem_cons.mp hc with h | h
          · rw [h]; decide
          · exact hvh c h)
        ⟨'"', by simp, by decide⟩,
      trimList_eq_self_of_all _ hall, stripPfx_quote_head,
      Option.getD_some, stripSfx_quote_of_all v hq, Option.getD_none]
  · have hall : ∀ c ∈ '"' :: '"' :: v ++ ['"', '"'], isRustWhitespace c = false := by
      intro c hc
      rcases List.mem_cons.mp hc with h | h
      · rw [h]; decide
      · rcases List.mem_cons.mp h with h | h
        · rw [h]; decide
        · rcases List.mem_append.mp h with h | h
          · exact hvns c h
          · rcases List.mem_cons.mp h with h | h
            · rw [h]; decide
            · rw [List.mem_singleton.mp h]; decide
    rw [parseConfigLine_plain k _ hk0 hk
        (by
          intro c hc
          rcases List.mem_cons.mp hc with h | h
          · rw [h]; decide
          · rcases List.mem_cons.mp h with h | h
            · rw [h]; decide
            · rcases List.mem_append.mp h with h | h
              · exact hvh c h
              · rcases List.mem_cons.mp h with h | h
                · rw [h]; decide
                · rw [List.mem_singleton.mp h]; decide)
        ⟨'"', by simp, by decide⟩,
      trimList_eq_self_of_all _ hall]
    simp only [List.cons_append]
    rw [stripPfx_quote_head, Option.getD_some,
      show '"' :: (v ++ ['"', '"']) = ('"' :: (v ++ ['"'])) ++ ['"'] by simp,
      stripSfx_append_quote, Option.getD_some]

/-- Witness for C7: with key `key` and value token `v`, the lines
`key "v"`, `key v`, `key "v` all yield the value `v`, and `key ""v""`
yields `"v"`. -/
theorem npd_config_quote_stripping_witness :
    parseConfigLine "key \"v\"".toList = some ("key".toList, "v".toList) ∧
    parseConfigLine "key v".toList = some ("key".toList, "v".toList) ∧
    parseConfigLine "key \"v".toList = some ("key".toList, "v".toList) ∧
    parseConfigLine "key \"\"v\"\"".toList = some ("key".toList, "\"v\"".toList) :=
  npd_config_quote_stripping "key".toList "v".toList (by decide) (by decide)
    (by decide) (by decide)

end Npd
